import Mathlib

/-!
# Verification of cargo-fork's source-resolution and patch pipeline

Shallow embedding of the core logic of `src/manifest.rs`, `src/crates_io.rs`
and `src/main.rs`:

* `diff_deps` — the dependency-graph differ (`manifest.rs`, mirrored by
  `print_changed_deps` in `main.rs`);
* `lookup_vcs` — the `.cargo_vcs_info.json` extractor
  (`lookup_vcs_for_version` in `crates_io.rs` / `lookup_vcs_revision` in
  `main.rs`);
* `unpack_crate_archive_check` — the single-top-level-directory check of
  `unpack_crate_archive`;
* `vcs_acquire` — the VCS branch of `main` that chooses the revision and the
  patch directory;
* a model of `toml_edit` documents together with
  `toml_get_or_create_table_by_path` / `manifest_insert_patch`.

Filesystem paths are modelled as lists of path components (`List String`);
`PathBuf::join` is list append, and `PathBuf::from "./"` is `["."]`.
Machine I/O (HTTP fetch, tar decoding, the filesystem) is out of scope: the
functions receive the already-enumerated data (archive entries, directory
entries) that the Rust code iterates over.
-/

set_option autoImplicit false

namespace CargoFork

/-! ## Dependency graph differ (`manifest.rs::diff_deps`)

`cargo metadata`'s resolve nodes are pairs of a package id and its dependency
list.  `cargo_meta_to_depmap` builds a `HashMap<&PackageId, HashSet<&PackageId>>`
from them; we model the hash map as an association list with distinct keys
(later inserts overwrite earlier ones, as `HashMap::from_iter` does) and the
hash sets as `Finset`s (iteration order of a `HashSet` is not significant).
Package ids are modelled as `Nat`. -/

/-- Association-list lookup (first matching key), modelling `HashMap::get`. -/
def depmapLookup (m : List (Nat × Finset Nat)) (k : Nat) : Option (Finset Nat) :=
  (m.find? (fun kv => kv.1 = k)).map Prod.snd

/-- One `HashMap::insert`: overwrite the value of an existing key, otherwise
append the new binding. -/
def depmapInsert (m : List (Nat × Finset Nat)) (k : Nat) (v : Finset Nat) :
    List (Nat × Finset Nat) :=
  if (m.map Prod.fst).contains k then
    m.map (fun kv => if kv.1 = k then (k, v) else kv)
  else
    m ++ [(k, v)]

/-- `cargo_meta_to_depmap`: build the package-id → dependency-set map from the
resolve nodes (`HashMap::from_iter`, later duplicates overwriting earlier). -/
def cargo_meta_to_depmap (nodes : List (Nat × List Nat)) : List (Nat × Finset Nat) :=
  nodes.foldl (fun m kv => depmapInsert m kv.1 kv.2.toFinset) []

/-- `diff_deps` from `manifest.rs`: for every node of the "after" map, skip it
when its dependency set is unchanged, report both set differences when it
changed, and report `(∅, ∅)` when the node is absent from "before" (the code
returns `(Vec::new(), Vec::new())` in that branch). -/
def diff_deps (metadata_before metadata_after : List (Nat × List Nat)) :
    List (Nat × (Finset Nat × Finset Nat)) :=
  let depmap_after := cargo_meta_to_depmap metadata_after
  let depmap_before := cargo_meta_to_depmap metadata_before
  depmap_after.filterMap (fun kv =>
    match depmapLookup depmap_before kv.1 with
    | some deps_before =>
        if deps_before = kv.2 then none
        else some (kv.1, (deps_before \ kv.2, kv.2 \ deps_before))
    | none => some (kv.1, (∅, ∅)))

/-! ## VCS metadata extraction (`crates_io.rs::lookup_vcs_for_version`) -/

/-- The two optional fields of the `git` section of `.cargo_vcs_info.json`. -/
structure GitInfo where
  sha1 : Option String
  deriving DecidableEq, Repr

/-- The shape `serde_json` deserializes `.cargo_vcs_info.json` into
(`VcsInfoSerde` in the source): an optional `git` section and an optional
`path_in_vcs` (already split into path components here). -/
structure VcsInfoSerde where
  git : Option GitInfo
  path_in_vcs : Option (List String)
  deriving DecidableEq, Repr

/-- `VcsInfo` from `crates_io.rs`: the revision hash and the subpath inside
the repository that produced the release. -/
structure VcsInfo where
  hash : String
  path_in_vcs : List String
  deriving DecidableEq, Repr

deriving instance DecidableEq for Except

/-- One tar entry: its path (as components) and the result of deserializing
its contents as `.cargo_vcs_info.json` (`Except.error` models a
`serde_json::from_str` failure; the field is only consulted for the entry the
scan selects). -/
structure ArchiveEntry where
  path : List String
  contents : Except String VcsInfoSerde
  deriving DecidableEq, Repr

/-- The distinct failure exits of `lookup_vcs_for_version` (the source uses
`anyhow` messages; the spec's taxonomy calls the absent-`sha1` case
`MissingVcsRevision`). -/
inductive VcsLookupError where
  /-- `path.file_name().context("Unexpected path")?` failed. -/
  | unexpectedPath
  /-- `serde_json::from_str` failed. -/
  | jsonParseError (msg : String)
  /-- "No git info found": the metadata file has no `git` section. -/
  | noGitInfo
  /-- "No revision info found": the `git` section has no `sha1`. -/
  | missingVcsRevision
  deriving DecidableEq, Repr

/-- `Path::file_name` on a component list: `.` components are normalized
away; the result is the last remaining component unless it is `..` (in which
case, as for `Path::new("..")`, there is no file name). -/
def fileName (p : List String) : Option String :=
  match (p.filter (fun c => !(c == "") && !(c == "."))).getLast? with
  | none => none
  | some last => if last = ".." then none else some last

/-- The well-known metadata filename searched for in the archive. -/
def vcsInfoFileName : String := ".cargo_vcs_info.json"

/-- `lookup_vcs_for_version`, after the archive has been fetched and its
entries enumerated: scan the entries in order; on the first one whose base
name is `.cargo_vcs_info.json`, parse it, require `git.sha1`, and default the
subpath to `PathBuf::from "./" = ["."]`; if no entry matches, return
`none` ("no info"). -/
def lookup_vcs : List ArchiveEntry → Except VcsLookupError (Option VcsInfo)
  | [] => .ok none
  | e :: rest =>
    match fileName e.path with
    | none => .error .unexpectedPath
    | some fname =>
      if fname = vcsInfoFileName then
        match e.contents with
        | .error msg => .error (.jsonParseError msg)
        | .ok vcs =>
          match vcs.git with
          | none => .error .noGitInfo
          | some git =>
            match git.sha1 with
            | none => .error .missingVcsRevision
            | some sha1 =>
              .ok (some { hash := sha1, path_in_vcs := vcs.path_in_vcs.getD ["."] })
      else lookup_vcs rest

/-! ## Archive unpack layout check (`crates_io.rs::unpack_crate_archive`)

After `archive.unpack(tmpdir)`, the code reads the top-level directory
entries: it takes the first entry (`entries.nth(0)`), fails when the
remainder is non-empty (`entries.count() != 0`), fails when there is no first
entry, and otherwise returns the single entry's file name. -/

/-- The failure exit of the layout check; the spec's taxonomy calls both
`bail!` sites `MalformedArchiveLayout`. -/
inductive UnpackError where
  | malformedArchiveLayout (msg : String)
  deriving DecidableEq, Repr

/-- The top-level layout check of `unpack_crate_archive`, applied to the
names found in the unpack directory (in the filesystem's enumeration
order). -/
def unpack_crate_archive_check (entries : List String) : Except UnpackError String :=
  match entries with
  | [] => .error (.malformedArchiveLayout "empty crate archive")
  | first :: rest =>
    if rest.length ≠ 0 then
      .error (.malformedArchiveLayout "more than one entry in crate archive")
    else
      .ok first

/-! ## VCS acquisition branch of `main` (`main.rs`, `args.source != Source::Crate`)

For the two VCS strategies, `main` computes the revision to check out and the
patch directory handed to `manifest_insert_patch`.  The external lookups are
parameters: `current_vcs_info` is the result of `lookup_vcs_revision` for the
release archive, and `repo_pkg_path` is the package's manifest directory
relative to the checkout, as derived from `query_metadata(&checkout_dir)`
(`none` when the package is not found in the repository's workspace). -/

/-- The `--source` flag (`Source` in `main.rs`). -/
inductive Source where
  | crate
  | vcsHead
  | vcsCurrent
  deriving DecidableEq, Repr

/-- The failure exits of the VCS acquisition branch. -/
inductive AcquireError where
  /-- "No .cargo_vcs_info.json for package …, try --source-vcs-head". -/
  | noVcsInfoForRelease
  /-- "Failed to find package … in repo …". -/
  | packageNotFoundInRepo
  deriving DecidableEq, Repr

/-- The VCS branch of `main` (lines 327–360): pick the revision (`"HEAD"` for
`VCSHead`, the archive's recorded hash otherwise), then compute
`checkout_dir.join(path_in_repo)` where `path_in_repo` is the archive's
recorded subpath when VCS metadata is present, and otherwise the path derived
from the checked-out repository's own metadata.  Returns the requested
revision together with the patch directory.  (Only called with
`source ≠ Source.crate`.) -/
def vcs_acquire (source : Source) (checkout_dir : List String)
    (current_vcs_info : Option VcsInfo) (repo_pkg_path : Option (List String)) :
    Except AcquireError (String × List String) := do
  let revision ←
    if source = Source.vcsHead then
      Except.ok "HEAD"
    else
      match current_vcs_info with
      | some vcinfo => Except.ok vcinfo.hash
      | none => Except.error .noVcsInfoForRelease
  let path_in_repo ←
    match current_vcs_info with
    | some vcs_info => Except.ok vcs_info.path_in_vcs
    | none =>
      match repo_pkg_path with
      | some p => Except.ok p
      | none => Except.error .packageNotFoundInRepo
  Except.ok (revision, checkout_dir ++ path_in_repo)

/-! ## `toml_edit` document model (`manifest.rs`, `main.rs`)

A `toml_edit::Document` is a tree of tables preserving formatting.  We model
exactly what the patching code touches and what serialization does with it:

* an `Item` is either a `Value` (its rendered text) or a nested `Table`;
* a `Table` holds its `implicit` flag, the decor text preceding its header
  (comments/blank lines), and its entries in insertion order (an `IndexMap`);
* `Document::to_string` walks the nested tables depth-first; a table's
  header `decor ++ "[" ++ path ++ "]\n"` is emitted unless the table is
  implicit and has no direct key-values; direct key-values are emitted as
  `key = value` lines before the sub-tables.

(Positions recorded at parse time, dotted keys and arrays-of-tables are not
modelled; the documents below are trees in document order.) -/

mutual
/-- `toml_edit::Item`, restricted to the two kinds the patcher handles:
values (kept as their rendered text) and standard tables. -/
inductive TItem : Type where
  | value : String → TItem
  | table : TTable → TItem
  deriving DecidableEq

/-- `toml_edit::Table`: implicit flag, header decor, entries in order. -/
inductive TTable : Type where
  | mk : Bool → String → TEntries → TTable
  deriving DecidableEq

/-- The entries of a table, in insertion order. -/
inductive TEntries : Type where
  | nil : TEntries
  | cons : String → TItem → TEntries → TEntries
  deriving DecidableEq
end

/-- The `implicit` flag of a table. -/
def TTable.implicit : TTable → Bool
  | .mk imp _ _ => imp

/-- The decor text preceding a table's header. -/
def TTable.decor : TTable → String
  | .mk _ dec _ => dec

/-- The entries of a table. -/
def TTable.entries : TTable → TEntries
  | .mk _ _ es => es

/-- First-match lookup of a key, modelling `IndexMap` access (an `IndexMap`
never holds a key twice). -/
def getEntry : TEntries → String → Option TItem
  | .nil, _ => none
  | .cons k0 it0 rest, k => if k0 = k then some it0 else getEntry rest k

/-- `table[key] = item` / `entry(key).or_insert(item)` writeback: replace the
value at an existing key in place, otherwise append the new binding. -/
def setEntry : TEntries → String → TItem → TEntries
  | .nil, k, it => .cons k it .nil
  | .cons k0 it0 rest, k, it =>
    if k0 = k then .cons k0 it rest else .cons k0 it0 (setEntry rest k it)

/-- Number of bindings of a key (1 at most for any table produced by
parsing, since an `IndexMap` holds each key once). -/
def countKey : TEntries → String → Nat
  | .nil, _ => 0
  | .cons k0 _ rest, k => (if k0 = k then 1 else 0) + countKey rest k

/-- Whether a table has any direct key-value (non-table) entry
(`Table::get_values().is_empty()` in the serializer). -/
def hasValues : TEntries → Bool
  | .nil => false
  | .cons _ (.value _) _ => true
  | .cons _ (.table _) rest => hasValues rest

/-- `Table::set_implicit(true)`. -/
def setImplicitTrue : TTable → TTable
  | .mk _ dec es => .mk true dec es

/-- `toml_edit::table()`: a fresh empty table (explicit; its header decor
defaults to a blank line before the header when it is rendered). -/
def newTable : TTable := .mk false "\n" .nil

/-- Dotted header path, e.g. `["patch", "crates-io"] ↦ "patch.crates-io"`. -/
def renderPath : List String → String
  | [] => ""
  | [k] => k
  | k :: rest => k ++ "." ++ renderPath rest

mutual
/-- The `key = value` lines of a table body (direct values, in order). -/
def renderValues : TEntries → String
  | .nil => ""
  | .cons k (.value v) rest => k ++ " = " ++ v ++ "\n" ++ renderValues rest
  | .cons _ (.table _) rest => renderValues rest

/-- The serialized sub-tables of a table, depth-first in entry order. -/
def renderSub : List String → TEntries → String
  | _, .nil => ""
  | path, .cons _ (.value _) rest => renderSub path rest
  | path, .cons k (.table t) rest => renderTable (path ++ [k]) t ++ renderSub path rest

/-- One table at its dotted path: header (suppressed when the table is
implicit and has no direct values), then its values, then its sub-tables. -/
def renderTable (path : List String) : TTable → String
  | .mk imp dec es =>
    (if imp && !(hasValues es) then "" else dec ++ "[" ++ renderPath path ++ "]" ++ "\n")
      ++ renderValues es ++ renderSub path es
end

/-- `Document::to_string`: the root table renders without a header — its
direct values first, then every nested table. -/
def serialize : TTable → String
  | .mk _ _ es => renderValues es ++ renderSub [] es

/-- `toml_get_or_create_table_by_path` (`manifest.rs` lines 54–68), fused
with the caller's final mutation `upd` of the table the path leads to: each
path component is looked up (`entry(key).or_insert_with(table())`), must be a
table (else the "Maformed Cargo.toml" error, spelled as in the source), and
is marked implicit (`set_implicit(true)`) — whether it pre-existed or was
just created. -/
def navigate : List String → TTable → (TTable → TTable) → Except String TTable
  | [], t, upd => .ok (upd t)
  | k :: rest, .mk imp dec es, upd =>
    match getEntry es k with
    | some (.value _) => .error "Maformed Cargo.toml"
    | some (.table ct) =>
      match navigate rest (setImplicitTrue ct) upd with
      | .error e => .error e
      | .ok ct2 => .ok (.mk imp dec (setEntry es k (.table ct2)))
    | none =>
      match navigate rest (setImplicitTrue newTable) upd with
      | .error e => .error e
      | .ok ct2 => .ok (.mk imp dec (setEntry es k (.table ct2)))

/-- The rendered inline table `manifest_insert_patch` builds:
`InlineTable` with `path` inserted first and `package` second. -/
def renderInline (patch_dir package_name : String) : String :=
  "\x7b path = \"" ++ patch_dir ++ "\", package = \"" ++ package_name ++ "\" \x7d"

/-- `manifest_insert_patch` (`manifest.rs` lines 70–91): navigate to
`patch.crates-io` (creating/implicit-marking along the way) and assign
`patch_table[package_name] = { path = …, package = … }`. -/
def manifest_insert_patch (root : TTable) (package_name patch_dir : String) :
    Except String TTable :=
  navigate ["patch", "crates-io"] root (fun pt =>
    .mk pt.implicit pt.decor
      (setEntry pt.entries package_name (.value (renderInline patch_dir package_name))))

/-- The `patch` sub-table of a document's root, when present. -/
def getTable (t : TTable) (k : String) : Option TTable :=
  match getEntry t.entries k with
  | some (.table ct) => some ct
  | _ => none

/-- The item stored for `package_name` under `patch.crates-io`, if any. -/
def getPatchEntry (t : TTable) (package_name : String) : Option TItem :=
  match getTable t "patch" with
  | none => none
  | some pt =>
    match getTable pt "crates-io" with
    | none => none
    | some ct => getEntry ct.entries package_name

/-- How many bindings `patch.crates-io` holds for `package_name`. -/
def countPatchKey (t : TTable) (package_name : String) : Nat :=
  match getTable t "patch" with
  | none => 0
  | some pt =>
    match getTable pt "crates-io" with
    | none => 0
    | some ct => countKey ct.entries package_name

/-- Concatenation of entry lists (used to state that an insert with a fresh
key appends at the end). -/
def appendE : TEntries → TEntries → TEntries
  | .nil, ys => ys
  | .cons k it rest, ys => .cons k it (appendE rest ys)

/-- Whether `pat` occurs as a contiguous segment of `hay` (a decidable
substring check used to state serialization counterexamples). -/
def listHasSeg (pat : List Char) : List Char → Bool
  | [] => pat.isEmpty
  | c :: rest => pat.isPrefixOf (c :: rest) || listHasSeg pat rest

/-- The entries of the `patch` table navigation starts from: those of a
pre-existing `patch` table, or the empty entries of the fresh table
`toml_get_or_create_table_by_path` creates. -/
def patchEntriesOf (es : TEntries) : TEntries :=
  match getEntry es "patch" with
  | some (.table pt) => pt.entries
  | _ => .nil

/-- The header decor of the (pre-existing or fresh) `patch` table. -/
def patchDecorOf (es : TEntries) : String :=
  match getEntry es "patch" with
  | some (.table pt) => pt.decor
  | _ => "\n"

/-- The entries of the (pre-existing or fresh) `patch.crates-io` table. -/
def cratesEntriesOf (es : TEntries) : TEntries :=
  match getEntry (patchEntriesOf es) "crates-io" with
  | some (.table ct) => ct.entries
  | _ => .nil

/-- The header decor of the (pre-existing or fresh) `patch.crates-io`
table. -/
def cratesDecorOf (es : TEntries) : String :=
  match getEntry (patchEntriesOf es) "crates-io" with
  | some (.table ct) => ct.decor
  | _ => "\n"

/-! ### Sample documents used by the witnesses and counterexamples -/

/-- A manifest whose `patch` and `patch.crates-io` tables already exist
explicitly (implicit flag `false`), with one existing override for `foo`
(the scenario of §8 of the spec). -/
def sampleExplicitRoot : TTable :=
  .mk false ""
    (.cons "patch"
      (.table (.mk false ""
        (.cons "crates-io"
          (.table (.mk false ""
            (.cons "foo" (.value "\x7b path = \"/old\", package = \"foo\" \x7d") .nil)))
          .nil)))
      .nil)

/-- `sampleExplicitRoot` after one `manifest_insert_patch` for `foo` with
path `/p1`. -/
def sampleExplicitPatched1 : TTable :=
  .mk false ""
    (.cons "patch"
      (.table (.mk true ""
        (.cons "crates-io"
          (.table (.mk true ""
            (.cons "foo" (.value (renderInline "/p1" "foo")) .nil)))
          .nil)))
      .nil)

/-- `sampleExplicitPatched1` after a second `manifest_insert_patch` for
`foo` with path `/p2`. -/
def sampleExplicitPatched2 : TTable :=
  .mk false ""
    (.cons "patch"
      (.table (.mk true ""
        (.cons "crates-io"
          (.table (.mk true ""
            (.cons "foo" (.value (renderInline "/p2" "foo")) .nil)))
          .nil)))
      .nil)

/-- A manifest containing an explicit, empty `[patch]` section and nothing
else: its serialization is the single header line. -/
def explicitPatchRoot : TTable :=
  .mk false "" (.cons "patch" (.table (.mk false "" .nil)) .nil)

/-- `explicitPatchRoot` after patching `foo` with `/new`: `patch` has been
marked implicit, so its header line is gone from the serialization. -/
def explicitPatchPatched : TTable :=
  .mk false ""
    (.cons "patch"
      (.table (.mk true ""
        (.cons "crates-io"
          (.table (.mk true "\n"
            (.cons "foo" (.value (renderInline "/new" "foo")) .nil)))
          .nil)))
      .nil)

/-- A manifest with no `patch` table: one `[dependencies]` section with one
entry. -/
def noPatchRoot : TTable :=
  .mk false ""
    (.cons "dependencies" (.table (.mk false "" (.cons "serde" (.value "\"1\"") .nil))) .nil)

/-- `noPatchRoot` after patching `foo` with `/new`: the fresh implicit
`patch`/`patch.crates-io` chain is appended after the existing entries. -/
def noPatchPatched : TTable :=
  .mk false ""
    (.cons "dependencies" (.table (.mk false "" (.cons "serde" (.value "\"1\"") .nil)))
      (.cons "patch"
        (.table (.mk true "\n"
          (.cons "crates-io"
            (.table (.mk true "\n"
              (.cons "foo" (.value (renderInline "/new" "foo")) .nil)))
            .nil)))
        .nil))

/-! ## Lemmas: the dependency-map construction has distinct keys -/

theorem depmapInsert_keys (m : List (Nat × Finset Nat)) (k : Nat) (v : Finset Nat) :
    (depmapInsert m k v).map Prod.fst =
      if (m.map Prod.fst).contains k then m.map Prod.fst
      else m.map Prod.fst ++ [k] := by
  unfold depmapInsert
  split
  · rw [List.map_map]
    apply List.map_congr_left
    intro kv _
    by_cases hk : kv.1 = k
    · simp [hk]
    · simp [hk]
  · simp

theorem depmapInsert_keys_nodup (m : List (Nat × Finset Nat)) (k : Nat) (v : Finset Nat)
    (h : (m.map Prod.fst).Nodup) : ((depmapInsert m k v).map Prod.fst).Nodup := by
  rw [depmapInsert_keys]
  split
  · exact h
  · rename_i hc
    rw [List.nodup_append]
    refine ⟨h, List.nodup_singleton k, ?_⟩
    intro a ha hb
    rw [List.mem_singleton] at hb
    subst hb
    exact hc (by simpa using ha)

theorem depmap_keys_nodup (nodes : List (Nat × List Nat)) :
    ((cargo_meta_to_depmap nodes).map Prod.fst).Nodup := by
  unfold cargo_meta_to_depmap
  suffices H : ∀ (l : List (Nat × List Nat)) (m : List (Nat × Finset Nat)),
      (m.map Prod.fst).Nodup →
      ((l.foldl (fun m kv => depmapInsert m kv.1 kv.2.toFinset) m).map Prod.fst).Nodup by
    exact H nodes [] (by simp)
  intro l
  induction l with
  | nil => intro m hm; simpa using hm
  | cons kv tl ih =>
    intro m hm
    exact ih _ (depmapInsert_keys_nodup m kv.1 kv.2.toFinset hm)

theorem depmapLookup_of_mem (m : List (Nat × Finset Nat))
    (h : (m.map Prod.fst).Nodup) (p : Nat × Finset Nat) (hp : p ∈ m) :
    depmapLookup m p.1 = some p.2 := by
  induction m with
  | nil => cases hp
  | cons q tl ih =>
    rcases List.mem_cons.mp hp with heq | htl
    · subst heq
      simp [depmapLookup, List.find?]
    · have hq : q.1 ≠ p.1 := by
        intro hcontra
        have : p.1 ∈ tl.map Prod.fst := List.mem_map_of_mem Prod.fst htl
        rw [List.map_cons, List.nodup_cons] at h
        exact h.1 (hcontra ▸ this)
      have := ih (by rw [List.map_cons, List.nodup_cons] at h; exact h.2) htl
      simpa [depmapLookup, List.find?, hq] using this

/-! ## C3: diffing a graph against itself is empty -/

/-- C3 (confirmed): for every dependency-graph snapshot, `diff_deps`
applied to the snapshot and itself reports no node: every node of "after"
is found in "before" with the same dependency set and is skipped. -/
theorem diffDeps_self_empty (nodes : List (Nat × List Nat)) :
    diff_deps nodes nodes = [] := by
  unfold diff_deps
  rw [List.filterMap_eq_nil_iff]
  intro kv hkv
  rw [depmapLookup_of_mem _ (depmap_keys_nodup nodes) kv hkv]
  simp

/-! ## C1: what the differ reports for a node new in "after" -/

/-- C1 (counterexample): the node `0` is new in "after" and its full
dependency set is `{1}`, but `diff_deps` reports it with an *empty* added
set (`(Vec::new(), Vec::new())` in the source), not with `{1}`. -/
theorem diffDeps_newNode_counterexample :
    cargo_meta_to_depmap [(0, [1])] = [(0, ({1} : Finset Nat))] ∧
    diff_deps [] [(0, [1])] = [(0, ((∅ : Finset Nat), (∅ : Finset Nat)))] ∧
    ((∅ : Finset Nat) ≠ ({1} : Finset Nat)) := by
  refine ⟨by decide, by decide, by decide⟩

/-- C1 (amended): a node present in "after" whose id is absent from the
"before" map is reported with an empty removed set and an *empty* added set
(the code returns two empty vectors for new nodes; their dependency edges
are not listed). -/
theorem diffDeps_newNode_reported_empty (before after : List (Nat × List Nat))
    (id : Nat) (deps : Finset Nat)
    (hmem : (id, deps) ∈ cargo_meta_to_depmap after)
    (habs : depmapLookup (cargo_meta_to_depmap before) id = none) :
    (id, ((∅ : Finset Nat), (∅ : Finset Nat))) ∈ diff_deps before after := by
  unfold diff_deps
  apply List.mem_filterMap.mpr
  refine ⟨(id, deps), hmem, ?_⟩
  rw [habs]

/-- Witness for `diffDeps_newNode_reported_empty` at a concrete input. -/
theorem diffDeps_newNode_reported_empty_witness :
    ((0, ({1} : Finset Nat)) ∈ cargo_meta_to_depmap [(0, [1])]) ∧
    (depmapLookup (cargo_meta_to_depmap []) 0 = none) ∧
    ((0, ((∅ : Finset Nat), (∅ : Finset Nat))) ∈ diff_deps [] [(0, [1])]) :=
  ⟨by decide, by decide,
    diffDeps_newNode_reported_empty [] [(0, [1])] 0 {1} (by decide) (by decide)⟩

/-! ## Lemmas: the archive scan skips non-matching entries -/

theorem lookup_vcs_cons_skip (e : ArchiveEntry) (rest : List ArchiveEntry) (f : String)
    (hf : fileName e.path = some f) (hne : f ≠ vcsInfoFileName) :
    lookup_vcs (e :: rest) = lookup_vcs rest := by
  conv_lhs => unfold lookup_vcs
  rw [hf]
  simp [hne]

theorem lookup_vcs_append_skip (pre rest : List ArchiveEntry)
    (h : ∀ e ∈ pre, fileName e.path ≠ none ∧ fileName e.path ≠ some vcsInfoFileName) :
    lookup_vcs (pre ++ rest) = lookup_vcs rest := by
  induction pre with
  | nil => rfl
  | cons e tl ih =>
    obtain ⟨h1, h2⟩ := h e (List.mem_cons_self e tl)
    obtain ⟨f, hf⟩ := Option.ne_none_iff_exists.mp h1
    have hf2 : fileName e.path = some f := hf.symm
    have hfne : f ≠ vcsInfoFileName := by
      intro hcontra
      exact h2 (by rw [hf2, hcontra])
    rw [List.cons_append, lookup_vcs_cons_skip e (tl ++ rest) f hf2 hfne]
    exact ih (fun x hx => h x (List.mem_cons_of_mem e hx))

/-! ## C4: a found, well-formed metadata file yields its sha1 and subpath -/

/-- C4 (confirmed): when the scan's first match (every earlier entry has a
base name different from `.cargo_vcs_info.json`) deserializes to a `git`
section with a `sha1`, the extractor returns `some` `VcsInfo` carrying
exactly that hash, and the embedded subpath — or the repository root `["."]`
(`PathBuf::from "./"`) when `path_in_vcs` is omitted. -/
theorem lookupVcs_wellformed_metadata (pre rest : List ArchiveEntry)
    (e : ArchiveEntry) (sha1 : String) (subpath : Option (List String))
    (hpre : ∀ x ∈ pre, fileName x.path ≠ none ∧ fileName x.path ≠ some vcsInfoFileName)
    (hname : fileName e.path = some vcsInfoFileName)
    (hcontents : e.contents = .ok ⟨some ⟨some sha1⟩, subpath⟩) :
    lookup_vcs (pre ++ e :: rest) =
      .ok (some ⟨sha1, subpath.getD ["."]⟩) := by
  rw [lookup_vcs_append_skip pre _ hpre]
  conv_lhs => unfold lookup_vcs
  rw [hname, hcontents]
  simp

/-- Witness for `lookupVcs_wellformed_metadata`: an archive holding a
normal file and then a well-formed `.cargo_vcs_info.json` with
`sha1 = "abcd1234"` and `path_in_vcs = "crates/foo"`. -/
theorem lookupVcs_wellformed_metadata_witness :
    lookup_vcs
      [⟨["pkg-1.2.3", "Cargo.toml"], .error "not json"⟩,
       ⟨["pkg-1.2.3", ".cargo_vcs_info.json"],
         .ok ⟨some ⟨some "abcd1234"⟩, some ["crates", "foo"]⟩⟩] =
      .ok (some ⟨"abcd1234", ["crates", "foo"]⟩) :=
  lookupVcs_wellformed_metadata
    [⟨["pkg-1.2.3", "Cargo.toml"], .error "not json"⟩] []
    ⟨["pkg-1.2.3", ".cargo_vcs_info.json"], .ok ⟨some ⟨some "abcd1234"⟩, some ["crates", "foo"]⟩⟩
    "abcd1234" (some ["crates", "foo"])
    (by decide) (by decide) (by decide)

/-! ## C5: an archive without the metadata file -/

/-- C5 (counterexample): an archive with a single entry whose path `".."`
has no base name contains no file named `.cargo_vcs_info.json`, yet the
extractor fails with the "Unexpected path" error instead of returning the
"no info" outcome (`path.file_name().context("Unexpected path")?` in the
source). -/
theorem lookupVcs_noFile_error_counterexample :
    fileName [".."] = none ∧
    lookup_vcs [⟨[".."], .ok ⟨none, none⟩⟩] = .error .unexpectedPath ∧
    (Except.error .unexpectedPath ≠
      (.ok none : Except VcsLookupError (Option VcsInfo))) := by
  refine ⟨by decide, by decide, by decide⟩

/-- C5 (amended): the extractor returns the non-error "no info" outcome for
every archive in which no entry's base name is `.cargo_vcs_info.json`,
*provided* every entry's path has a base name; an entry whose path has no
base name (such as `..`) makes it fail with the "Unexpected path" error
instead. -/
theorem lookupVcs_noFile_none (entries : List ArchiveEntry)
    (h : ∀ e ∈ entries, fileName e.path ≠ none ∧ fileName e.path ≠ some vcsInfoFileName) :
    lookup_vcs entries = .ok none := by
  have := lookup_vcs_append_skip entries [] h
  rw [List.append_nil] at this
  rw [this]
  rfl

/-- Witness for `lookupVcs_noFile_none`: a two-entry archive with ordinary
file names. -/
theorem lookupVcs_noFile_none_witness :
    lookup_vcs
      [⟨["pkg-1.2.3", "Cargo.toml"], .error "not json"⟩,
       ⟨["pkg-1.2.3", "src", "lib.rs"], .error "not json"⟩] = .ok none :=
  lookupVcs_noFile_none
    [⟨["pkg-1.2.3", "Cargo.toml"], .error "not json"⟩,
     ⟨["pkg-1.2.3", "src", "lib.rs"], .error "not json"⟩]
    (by decide)

/-! ## C6: metadata file found with a `git` section but no `sha1` -/

/-- C6 (confirmed): when the scan's first match deserializes to a `git`
section whose `sha1` is absent, extraction fails with the
`MissingVcsRevision` error ("No revision info found" in the source) — it
neither returns "no info" nor a default. -/
theorem lookupVcs_missing_sha1_error (pre rest : List ArchiveEntry)
    (e : ArchiveEntry) (subpath : Option (List String))
    (hpre : ∀ x ∈ pre, fileName x.path ≠ none ∧ fileName x.path ≠ some vcsInfoFileName)
    (hname : fileName e.path = some vcsInfoFileName)
    (hcontents : e.contents = .ok ⟨some ⟨none⟩, subpath⟩) :
    lookup_vcs (pre ++ e :: rest) = .error .missingVcsRevision := by
  rw [lookup_vcs_append_skip pre _ hpre]
  conv_lhs => unfold lookup_vcs
  rw [hname, hcontents]
  simp

/-- Witness for `lookupVcs_missing_sha1_error`: the metadata file holds a
`git` section with no `sha1`. -/
theorem lookupVcs_missing_sha1_error_witness :
    lookup_vcs
      [⟨["pkg-1.2.3", "Cargo.toml"], .error "not json"⟩,
       ⟨["pkg-1.2.3", ".cargo_vcs_info.json"], .ok ⟨some ⟨none⟩, some ["crates", "foo"]⟩⟩] =
      .error .missingVcsRevision :=
  lookupVcs_missing_sha1_error
    [⟨["pkg-1.2.3", "Cargo.toml"], .error "not json"⟩] []
    ⟨["pkg-1.2.3", ".cargo_vcs_info.json"], .ok ⟨some ⟨none⟩, some ["crates", "foo"]⟩⟩
    (some ["crates", "foo"])
    (by decide) (by decide) (by decide)

/-! ## C7: the unpack layout check -/

/-- C7 (confirmed): the layout check succeeds with the single top-level
entry name exactly when the unpack directory holds exactly one entry; an
empty directory and a directory with two or more entries both fail with
the `MalformedArchiveLayout` error (the two `bail!` sites of the source). -/
theorem unpackCheck_single_root :
    (∀ name, unpack_crate_archive_check [name] = .ok name) ∧
    (∀ entries name, unpack_crate_archive_check entries = .ok name → entries = [name]) ∧
    (unpack_crate_archive_check [] =
      .error (.malformedArchiveLayout "empty crate archive")) ∧
    (∀ a b rest, unpack_crate_archive_check (a :: b :: rest) =
      .error (.malformedArchiveLayout "more than one entry in crate archive")) := by
  refine ⟨fun name => rfl, ?_, rfl, fun a b rest => rfl⟩
  intro entries name h
  match entries with
  | [] => simp [unpack_crate_archive_check] at h
  | [first] =>
    simp only [unpack_crate_archive_check, List.length_nil, ne_eq, not_true_eq_false,
      if_false, Except.ok.injEq] at h
    rw [h]
  | a :: b :: rest => simp [unpack_crate_archive_check] at h

/-- Witness for `unpackCheck_single_root`, applying the implication at a
concrete single-entry directory. -/
theorem unpackCheck_single_root_witness :
    unpack_crate_archive_check ["pkg-1.2.3"] = .ok "pkg-1.2.3" ∧
    ["pkg-1.2.3"] = ["pkg-1.2.3"] :=
  ⟨by decide, unpackCheck_single_root.2.1 ["pkg-1.2.3"] "pkg-1.2.3" (by decide)⟩

/-! ## C2: the path acquired for the `VcsHead` strategy -/

/-- C2 (counterexample): with `--source vcs-head` and a release archive that
records subpath `crates/foo`, the checkout revision is `HEAD` but the patch
directory handed to the manifest patcher is
`checkout_dir.join("crates/foo")`, not the repository root: the subpath
narrowing of `main.rs` is applied to both VCS strategies. -/
theorem vcsHead_subpath_counterexample :
    vcs_acquire .vcsHead ["checkout"] (some ⟨"abcd1234", ["crates", "foo"]⟩) none =
      .ok ("HEAD", ["checkout", "crates", "foo"]) ∧
    (["checkout", "crates", "foo"] ≠ ["checkout"]) := by
  refine ⟨by decide, by decide⟩

/-- C2 (amended): for every `VcsHead` acquisition the requested revision is
`HEAD`, but the acquired source path is the checkout directory joined with
the subpath recorded in the release's VCS metadata when such metadata is
present, and with the path derived from the checked-out repository's own
workspace metadata when it is not; it is the repository root only when that
subpath is the root. -/
theorem vcsHead_patchDir_characterization (checkout_dir : List String)
    (info : Option VcsInfo) (repo_pkg_path : Option (List String)) :
    vcs_acquire .vcsHead checkout_dir info repo_pkg_path =
      match info with
      | some v => .ok ("HEAD", checkout_dir ++ v.path_in_vcs)
      | none =>
        match repo_pkg_path with
        | some p => .ok ("HEAD", checkout_dir ++ p)
        | none => .error .packageNotFoundInRepo := by
  cases info with
  | some v => rfl
  | none => cases repo_pkg_path with
    | some p => rfl
    | none => rfl

/-! ## Lemmas: entry lists of the document model -/

theorem sizeOf_entries_tail_lt (k : String) (it : TItem) (rest : TEntries) :
    sizeOf rest < sizeOf (TEntries.cons k it rest) := by
  simp

/-- Structural induction along the entry-list spine of `TEntries` (the
mutual recursor is avoided by recursion on `sizeOf`). -/
theorem TEntries.spine_induction {P : TEntries → Prop} (hnil : P .nil)
    (hcons : ∀ k it rest, P rest → P (.cons k it rest)) : ∀ es, P es := by
  have H : ∀ (n : Nat) (es : TEntries), sizeOf es ≤ n → P es := by
    intro n
    induction n with
    | zero =>
      intro es h
      cases es with
      | nil => exact hnil
      | cons k it rest =>
        exfalso
        have := sizeOf_entries_tail_lt k it rest
        omega
    | succ n ih =>
      intro es h
      cases es with
      | nil => exact hnil
      | cons k it rest =>
        have := sizeOf_entries_tail_lt k it rest
        exact hcons k it rest (ih rest (by omega))
  exact fun es => H (sizeOf es) es le_rfl

theorem getEntry_setEntry_self (es : TEntries) (k : String) (it : TItem) :
    getEntry (setEntry es k it) k = some it := by
  induction es using TEntries.spine_induction with
  | hnil => simp [setEntry, getEntry]
  | hcons k0 it0 rest ih =>
    by_cases hk : k0 = k
    · simp [setEntry, getEntry, hk]
    · simp [setEntry, getEntry, hk, ih]

theorem getEntry_setEntry_ne (es : TEntries) (k0 k : String) (it : TItem)
    (h : k0 ≠ k) : getEntry (setEntry es k0 it) k = getEntry es k := by
  induction es using TEntries.spine_induction with
  | hnil => simp [setEntry, getEntry, h]
  | hcons k1 it1 rest ih =>
    by_cases hk : k1 = k0
    · subst hk
      simp [setEntry, getEntry, h]
    · simp [setEntry, getEntry, hk, ih]

theorem countKey_setEntry (es : TEntries) (k : String) (it : TItem) :
    countKey (setEntry es k it) k = max (countKey es k) 1 := by
  induction es using TEntries.spine_induction with
  | hnil => simp [setEntry, countKey]
  | hcons k0 it0 rest ih =>
    by_cases hk : k0 = k
    · simp [setEntry, countKey, hk]
    · simp [setEntry, countKey, hk, ih]

theorem setEntry_of_absent (es : TEntries) (k : String) (it : TItem)
    (h : getEntry es k = none) :
    setEntry es k it = appendE es (.cons k it .nil) := by
  induction es using TEntries.spine_induction with
  | hnil => simp [setEntry, appendE]
  | hcons k0 it0 rest ih =>
    by_cases hk : k0 = k
    · simp [getEntry, hk] at h
    · simp only [getEntry, hk, if_false] at h
      simp [setEntry, appendE, hk, ih h]

theorem renderValues_appendE (xs ys : TEntries) :
    renderValues (appendE xs ys) = renderValues xs ++ renderValues ys := by
  induction xs using TEntries.spine_induction with
  | hnil => simp [appendE, renderValues]
  | hcons k it rest ih =>
    cases it with
    | value v => simp [appendE, renderValues, ih, String.append_assoc]
    | table t => simp [appendE, renderValues, ih]

theorem renderSub_appendE (path : List String) (xs ys : TEntries) :
    renderSub path (appendE xs ys) = renderSub path xs ++ renderSub path ys := by
  induction xs using TEntries.spine_induction with
  | hnil => simp [appendE, renderSub]
  | hcons k it rest ih =>
    cases it with
    | value v => simp [appendE, renderSub, ih]
    | table t => simp [appendE, renderSub, ih, String.append_assoc]

/-! ## Lemmas: the result shape of `manifest_insert_patch` -/

/-- Whenever `manifest_insert_patch` succeeds, the result is the input root
with its `patch` entry replaced (or appended) by a table marked implicit,
whose `crates-io` entry is likewise replaced (or appended) by a table marked
implicit, in which the package's binding has been set to the rendered inline
table; the decors and the other entries of pre-existing tables (or of the
fresh empty ones) are carried over unchanged. -/
theorem insert_patch_shape (imp : Bool) (dec : String) (es : TEntries)
    (name p : String) (m : TTable)
    (h : manifest_insert_patch (.mk imp dec es) name p = .ok m) :
    m = .mk imp dec (setEntry es "patch" (.table (.mk true (patchDecorOf es)
          (setEntry (patchEntriesOf es) "crates-io" (.table (.mk true (cratesDecorOf es)
            (setEntry (cratesEntriesOf es) name (.value (renderInline p name))))))))) := by
  rcases hpe : getEntry es "patch" with _ | it
  · simp only [manifest_insert_patch, navigate, hpe, setImplicitTrue, newTable,
      getEntry, TTable.implicit, TTable.decor, TTable.entries, Except.ok.injEq] at h
    simp only [patchDecorOf, patchEntriesOf, cratesEntriesOf, cratesDecorOf, hpe, getEntry]
    exact h.symm
  · cases it with
    | value v =>
      simp only [manifest_insert_patch, navigate, hpe] at h
      exact (Except.noConfusion h)
    | table pt =>
      obtain ⟨pimp, pdec, pes⟩ := pt
      rcases hce : getEntry pes "crates-io" with _ | cit
      · simp only [manifest_insert_patch, navigate, hpe, setImplicitTrue, newTable,
          hce, getEntry, TTable.implicit, TTable.decor, TTable.entries, Except.ok.injEq] at h
        simp only [patchDecorOf, patchEntriesOf, cratesEntriesOf, cratesDecorOf, hpe, hce,
          TTable.decor, TTable.entries]
        exact h.symm
      · cases cit with
        | value v =>
          simp only [manifest_insert_patch, navigate, hpe, setImplicitTrue, hce] at h
          exact (Except.noConfusion h)
        | table ct =>
          obtain ⟨cimp, cdec, ces⟩ := ct
          simp only [manifest_insert_patch, navigate, hpe, setImplicitTrue, hce,
            TTable.implicit, TTable.decor, TTable.entries, Except.ok.injEq] at h
          simp only [patchDecorOf, patchEntriesOf, cratesEntriesOf, cratesDecorOf, hpe, hce,
            TTable.decor, TTable.entries]
          exact h.symm

/-- When the root has no `patch` entry at all, `manifest_insert_patch`
creates the whole chain: the `patch` and `patch.crates-io` tables are fresh,
implicit, carry the default header decor, and hold exactly the one new
binding. -/
theorem insert_patch_of_absent (imp : Bool) (dec : String) (es : TEntries)
    (name p : String) (habs : getEntry es "patch" = none) :
    manifest_insert_patch (.mk imp dec es) name p =
      .ok (.mk imp dec (setEntry es "patch" (.table (.mk true "\n"
        (.cons "crates-io" (.table (.mk true "\n"
          (.cons name (.value (renderInline p name)) .nil))) .nil))))) := by
  simp only [manifest_insert_patch, navigate, habs, setImplicitTrue, newTable,
    getEntry, setEntry, TTable.implicit, TTable.decor, TTable.entries]

/-- The count of a key in the (pre-existing or fresh) `patch.crates-io`
entries coincides with `countPatchKey` on the whole document. -/
theorem countKey_cratesEntriesOf (imp : Bool) (dec : String) (es : TEntries) (name : String) :
    countKey (cratesEntriesOf es) name = countPatchKey (.mk imp dec es) name := by
  rcases hpe : getEntry es "patch" with _ | it
  · simp [countPatchKey, cratesEntriesOf, patchEntriesOf, getTable, TTable.entries,
      hpe, getEntry, countKey]
  · cases it with
    | value v =>
      simp [countPatchKey, cratesEntriesOf, patchEntriesOf, getTable, TTable.entries,
        hpe, getEntry, countKey]
    | table pt =>
      obtain ⟨pimp, pdec, pes⟩ := pt
      rcases hce : getEntry pes "crates-io" with _ | cit
      · simp [countPatchKey, cratesEntriesOf, patchEntriesOf, getTable, TTable.entries,
          hpe, hce, countKey]
      · cases cit with
        | value v =>
          simp [countPatchKey, cratesEntriesOf, patchEntriesOf, getTable, TTable.entries,
            hpe, hce, countKey]
        | table ct =>
          obtain ⟨cimp, cdec, ces⟩ := ct
          simp [countPatchKey, cratesEntriesOf, patchEntriesOf, getTable, TTable.entries,
            hpe, hce]

/-! ## C8: patching the same name twice keeps exactly one entry -/

/-- C8 (confirmed): starting from a manifest whose `patch.crates-io` table
binds the package name at most once (always true of a parsed TOML document,
whose tables hold each key once), patching the same name twice with two
paths leaves exactly one binding for that name, and its value is the inline
table rendered from the *second* path — the second call overwrites, never
appends. -/
theorem insertPatch_overwrite_second (root : TTable) (name p1 p2 : String)
    (m1 m2 : TTable)
    (hcount : countPatchKey root name ≤ 1)
    (h1 : manifest_insert_patch root name p1 = .ok m1)
    (h2 : manifest_insert_patch m1 name p2 = .ok m2) :
    countPatchKey m2 name = 1 ∧
    getPatchEntry m2 name = some (.value (renderInline p2 name)) := by
  obtain ⟨imp, dec, es⟩ := root
  have hm1 := insert_patch_shape imp dec es name p1 m1 h1
  subst hm1
  have hm2 := insert_patch_shape imp dec _ name p2 m2 h2
  subst hm2
  have hpatch1 : patchEntriesOf (setEntry es "patch" (.table (.mk true (patchDecorOf es)
      (setEntry (patchEntriesOf es) "crates-io" (.table (.mk true (cratesDecorOf es)
        (setEntry (cratesEntriesOf es) name (.value (renderInline p1 name))))))))) =
      setEntry (patchEntriesOf es) "crates-io" (.table (.mk true (cratesDecorOf es)
        (setEntry (cratesEntriesOf es) name (.value (renderInline p1 name))))) := by
    simp [patchEntriesOf, getEntry_setEntry_self, TTable.entries]
  have hcrates1 : cratesEntriesOf (setEntry es "patch" (.table (.mk true (patchDecorOf es)
      (setEntry (patchEntriesOf es) "crates-io" (.table (.mk true (cratesDecorOf es)
        (setEntry (cratesEntriesOf es) name (.value (renderInline p1 name))))))))) =
      setEntry (cratesEntriesOf es) name (.value (renderInline p1 name)) := by
    rw [cratesEntriesOf, hpatch1]
    simp [getEntry_setEntry_self, TTable.entries]
  constructor
  · rw [countPatchKey]
    simp only [getTable, TTable.entries, getEntry_setEntry_self]
    rw [hcrates1, countKey_setEntry, countKey_setEntry]
    have hc := countKey_cratesEntriesOf imp dec es name
    omega
  · rw [getPatchEntry]
    simp only [getTable, TTable.entries, getEntry_setEntry_self]

/-- Witness for `insertPatch_overwrite_second`: the explicit sample
manifest already holding an override for `foo` is patched twice. -/
theorem insertPatch_overwrite_second_witness :
    countPatchKey sampleExplicitRoot "foo" ≤ 1 ∧
    manifest_insert_patch sampleExplicitRoot "foo" "/p1" = .ok sampleExplicitPatched1 ∧
    manifest_insert_patch sampleExplicitPatched1 "foo" "/p2" = .ok sampleExplicitPatched2 ∧
    (countPatchKey sampleExplicitPatched2 "foo" = 1 ∧
      getPatchEntry sampleExplicitPatched2 "foo" =
        some (.value (renderInline "/p2" "foo"))) :=
  ⟨by decide, by decide, by decide,
    insertPatch_overwrite_second sampleExplicitRoot "foo" "/p1" "/p2"
      sampleExplicitPatched1 sampleExplicitPatched2 (by decide) (by decide) (by decide)⟩

/-! ## C10: the implicit flag is set on both tables of the patch path -/

/-- C10 (confirmed): after any successful call of the manifest patcher, the
`patch` table and the `patch.crates-io` table both carry the implicit
rendering flag — `toml_get_or_create_table_by_path` calls
`set_implicit(true)` on every table it traverses, whether it pre-existed
explicitly or was just created. -/
theorem insertPatch_sets_implicit (root : TTable) (name p : String) (m : TTable)
    (h : manifest_insert_patch root name p = .ok m) :
    ∃ pt ct, getTable m "patch" = some pt ∧ pt.implicit = true ∧
      getTable pt "crates-io" = some ct ∧ ct.implicit = true := by
  obtain ⟨imp, dec, es⟩ := root
  have hm := insert_patch_shape imp dec es name p m h
  subst hm
  refine ⟨.mk true (patchDecorOf es)
      (setEntry (patchEntriesOf es) "crates-io" (.table (.mk true (cratesDecorOf es)
        (setEntry (cratesEntriesOf es) name (.value (renderInline p name)))))),
    .mk true (cratesDecorOf es)
      (setEntry (cratesEntriesOf es) name (.value (renderInline p name))),
    ?_, rfl, ?_, rfl⟩
  · simp [getTable, TTable.entries, getEntry_setEntry_self]
  · simp [getTable, TTable.entries, getEntry_setEntry_self]

/-- Witness for `insertPatch_sets_implicit`: both tables pre-exist with the
implicit flag `false` (explicit `[patch]` and `[patch.crates-io]` headers)
and end up implicit. -/
theorem insertPatch_sets_implicit_witness :
    manifest_insert_patch sampleExplicitRoot "foo" "/p1" = .ok sampleExplicitPatched1 ∧
    sampleExplicitRoot.implicit = false ∧
    (∃ pt ct, getTable sampleExplicitPatched1 "patch" = some pt ∧ pt.implicit = true ∧
      getTable pt "crates-io" = some ct ∧ ct.implicit = true) :=
  ⟨by decide, by decide,
    insertPatch_sets_implicit sampleExplicitRoot "foo" "/p1"
      sampleExplicitPatched1 (by decide)⟩

/-! ## C9: what patching does to the serialized document -/

/-- C9 (counterexample): a manifest consisting of an explicit, empty
`[patch]` section serializes to the single header line, but after patching
`foo` the serialization no longer contains that line anywhere: the patcher
marked the pre-existing explicit `patch` table implicit, and an implicit
table with no direct key-values renders without its header.  The original
header line is a part of the document other than the inserted entry, and
it is not preserved. -/
theorem insertPatch_serialize_counterexample :
    manifest_insert_patch explicitPatchRoot "foo" "/new" = .ok explicitPatchPatched ∧
    serialize explicitPatchRoot = "[patch]\n" ∧
    serialize explicitPatchPatched =
      "\n[patch.crates-io]\nfoo = " ++ renderInline "/new" "foo" ++ "\n" ∧
    listHasSeg "[patch]\n".toList (serialize explicitPatchRoot).toList = true ∧
    listHasSeg "[patch]\n".toList (serialize explicitPatchPatched).toList = false := by
  refine ⟨by decide, by decide, by decide, by decide, by decide⟩

/-- C9 (amended): patching touches nothing outside the `patch` entry of the
root — every other root entry is unchanged — and for a manifest with no
pre-existing `patch` table the patched serialization is exactly the
original serialization with the one new `[patch.crates-io]` section (holding
the single inserted entry) appended.  When a `patch` table already exists,
the tables along the patch path are re-marked implicit, so an explicit
`[patch]` header with no direct key-values is dropped from the output (the
counterexample); headers of tables holding direct values survive. -/
theorem insertPatch_serialize_frame (imp : Bool) (dec : String) (es : TEntries)
    (name p : String) (m : TTable)
    (h : manifest_insert_patch (.mk imp dec es) name p = .ok m) :
    (∀ k, k ≠ "patch" → getEntry m.entries k = getEntry es k) ∧
    (getEntry es "patch" = none →
      serialize m = serialize (.mk imp dec es) ++
        ("\n" ++ "[" ++ renderPath ["patch", "crates-io"] ++ "]" ++ "\n" ++
          (name ++ " = " ++ renderInline p name ++ "\n"))) := by
  have hm := insert_patch_shape imp dec es name p m h
  subst hm
  constructor
  · intro k hk
    simp only [TTable.entries]
    exact getEntry_setEntry_ne es "patch" k _ (fun hc => hk hc.symm)
  · intro habs
    rw [setEntry_of_absent es "patch" _ habs]
    simp only [patchDecorOf, patchEntriesOf, cratesEntriesOf, cratesDecorOf, habs,
      getEntry, setEntry]
    simp only [serialize, renderValues_appendE, renderSub_appendE]
    simp [renderValues, renderSub, renderTable, hasValues, renderPath,
      String.append_assoc]

/-- Witness for `insertPatch_serialize_frame`: patching a manifest holding
only a `[dependencies]` section appends the new section verbatim. -/
theorem insertPatch_serialize_frame_witness :
    manifest_insert_patch noPatchRoot "foo" "/new" = .ok noPatchPatched ∧
    serialize noPatchRoot = "[dependencies]\nserde = \"1\"\n" ∧
    serialize noPatchPatched =
      "[dependencies]\nserde = \"1\"\n" ++
        ("\n[patch.crates-io]\nfoo = " ++ renderInline "/new" "foo" ++ "\n") ∧
    ((∀ k, k ≠ "patch" → getEntry noPatchPatched.entries k = getEntry noPatchRoot.entries k) ∧
      (getEntry noPatchRoot.entries "patch" = none →
        serialize noPatchPatched = serialize noPatchRoot ++
          ("\n" ++ "[" ++ renderPath ["patch", "crates-io"] ++ "]" ++ "\n" ++
            ("foo" ++ " = " ++ renderInline "/new" "foo" ++ "\n")))) :=
  ⟨by decide, by decide, by decide,
    insertPatch_serialize_frame false "" noPatchRoot.entries "foo" "/new"
      noPatchPatched (by decide)⟩
